import Mathlib

/-!
# Verification of repoctl against its specification

Shallow embedding of the repoctl sources (the `main.go` command-line
front end found in the repository) together with spec-modelled
definitions for the parts of the reconciliation engine whose code is
not present in the source tree (package-filename parsing, the version
comparator, the action planner/executor and the backup policy).

All definitions in the first part of the file are direct translations
of the Go source file `src/unnamed/part_000`; effects (stdout/stderr
writes, process exit codes) are made explicit as returned values.
-/

set_option maxHeartbeats 1000000

namespace Repoctl

/-- Go constant `defaultRepo` (part_000 line 23). -/
def defaultRepo : String := "/srv/abs/atlas.db.tar.gz"

/-- Go struct `IniConfig` (part_000 lines 28-32): the TOML config file
contents (`repo`, `add_params`, `rm_params`). -/
structure IniConfig where
  Repo : String := ""
  AddParam : List String := []
  RmParam : List String := []
deriving DecidableEq

/-- Go struct `Config` (part_000 lines 36-81). Field names and order as
in the source; the Go zero value corresponds to the defaults here. -/
structure Config where
  ConfigFile : String := ""
  Repository : String := ""
  database : String := ""
  path : String := ""
  AddParameters : List String := []
  RemoveParameters : List String := []
  Quiet : Bool := false
  Columnate : Bool := false
  Versioned : Bool := false
  Mode : String := ""
  Pending : Bool := false
  Duplicates : Bool := false
  Installed : Bool := false
  Synchronize : Bool := false
  Interactive : Bool := false
  Backup : Bool := false
  Args : List String := []
deriving DecidableEq

/-- The distinct action functions of part_000: `List`, `Update`, `Add`,
`Remove`, `Status`, `Filter`, `Usage`.  (Several map keys alias the
same function, e.g. "ls" and "list".) -/
inductive ActionName where
  | list | update | add | remove | status | filter | usage
deriving DecidableEq

/-- Go map `actions` (part_000 lines 87-98), as a lookup function. -/
def actions (s : String) : Option ActionName :=
  if s = "list" then some .list
  else if s = "ls" then some .list
  else if s = "update" then some .update
  else if s = "add" then some .add
  else if s = "remove" then some .remove
  else if s = "rm" then some .remove
  else if s = "status" then some .status
  else if s = "filter" then some .filter
  else if s = "help" then some .usage
  else if s = "usage" then some .usage
  else none

/-- Go's `%q` verb as used in part_000's warnings (surrounding quotes;
the paths involved need no escaping). -/
def goQuote (s : String) : String := "\"" ++ s ++ "\""

/-- Model of Go stdlib `path.Base`: empty input gives ".", trailing
slashes are stripped, the part after the last slash is returned, and
an all-slash input gives "/". -/
def pathBase (s : String) : String :=
  if s = "" then "." else
  let l := (s.toList.reverse.dropWhile (fun c => c = '/'))
  let b := (l.takeWhile (fun c => c ≠ '/')).reverse
  if b = [] then "/" else String.mk b

/-- Model of Go stdlib `path.Dir`: everything up to the final slash,
cleaned of the trailing slash ("." when there is no slash, "/" for the
root).  `path.Clean`'s `.`/`..` normalization is omitted; the two
agree on the slash-normalized paths this program handles. -/
def pathDir (s : String) : String :=
  let d := (s.toList.reverse.dropWhile (fun c => c ≠ '/')).reverse
  if d = [] then "." else
  let d2 := (d.reverse.dropWhile (fun c => c = '/')).reverse
  if d2 = [] then "/" else String.mk d2

/-- Go function `NewConfig` (part_000 lines 167-173). -/
def NewConfig (repo : String) : Config :=
  { Repository := repo, path := pathDir repo, database := pathBase repo }

/-- Go function `readIniInto` (part_000 lines 175-189), for the case in
which `toml.DecodeFile` succeeded and produced `ini`: the repository is
taken from the file only when none was set yet, while the add/remove
parameters are always taken from the file. -/
def readIniInto (ini : IniConfig) (conf : Config) : Config :=
  { conf with
    Repository := if conf.Repository = "" then ini.Repo else conf.Repository
    AddParameters := ini.AddParam
    RemoveParameters := ini.RmParam }

/-- The results of `pflag` parsing as consumed by `ReadConfig`
(part_000 lines 197-216): each flag's bound value plus the positional
arguments. -/
structure CmdLine where
  configFile : String := ""
  repoFlag : String := ""
  columns : Bool := false
  quiet : Bool := false
  showHelp : Bool := false
  versioned : Bool := false
  pending : Bool := false
  duplicates : Bool := false
  installed : Bool := false
  outdated : Bool := false
  allListOptions : Bool := false
  interactive : Bool := false
  backup : Bool := false
  args : List String := []
deriving DecidableEq

/-- The Go triple `(conf *Config, cmd Action, err error)` returned by
`ReadConfig`. -/
structure RCResult where
  conf : Option Config := none
  cmd : Option ActionName := none
  err : Option String := none
deriving DecidableEq

/-- `ReadConfig`'s return value together with its writes to the two
output streams (it only ever writes warnings, to stderr). -/
structure RCOut where
  res : RCResult
  stdout : List String := []
  stderr : List String := []
deriving DecidableEq

/-- The `Config` value as it stands right after flag parsing inside
`ReadConfig`: each flag has been bound to its field. -/
def initialConf (cl : CmdLine) : Config :=
  { ConfigFile := cl.configFile
    Repository := cl.repoFlag
    Columnate := cl.columns
    Quiet := cl.quiet
    Versioned := cl.versioned
    Pending := cl.pending
    Duplicates := cl.duplicates
    Installed := cl.installed
    Synchronize := cl.outdated
    Interactive := cl.interactive
    Backup := cl.backup }

/-- `ReadConfig` stage, part_000 lines 222-230: consult the config
file.  On success, the configuration so far plus any stderr warnings
emitted; `toml.DecodeFile` failure aborts `ReadConfig`. -/
def confAfterFile (cl : CmdLine) (configFileExists : Bool)
    (iniResult : Except String IniConfig) : Except String (Config × List String) :=
  if configFileExists then
    match iniResult with
    | .ok ini => .ok (readIniInto ini (initialConf cl), [])
    | .error e => .error e
  else
    .ok (initialConf cl,
      ["Warning: missing config file " ++ goQuote cl.configFile ++ "."])

/-- `ReadConfig` stage, part_000 lines 232-235: substitute the default
repository (with a stderr warning) when none was supplied. -/
def confWithRepo (conf1 : Config) (warns1 : List String) : Config × List String :=
  if conf1.Repository = "" then
    ({ conf1 with Repository := defaultRepo },
      warns1 ++ ["Warning: missing repository, using " ++ goQuote defaultRepo ++ "."])
  else (conf1, warns1)

/-- `ReadConfig` stage, part_000 lines 236-237: derive `path` and
`database` from the repository. -/
def confDerived (conf2 : Config) : Config :=
  { conf2 with
    path := pathDir conf2.Repository
    database := pathBase conf2.Repository }

/-- `ReadConfig` stage, part_000 lines 242-250: expand the `--all`
flag and record the remaining positional arguments. -/
def confFinal (cl : CmdLine) (conf3 : Config) (rest : List String) : Config :=
  if cl.allListOptions then
    { conf3 with Versioned := true, Pending := true, Duplicates := true,
                 Installed := true, Synchronize := true, Args := rest }
  else { conf3 with Args := rest }

/-- Go function `ReadConfig` (part_000 lines 192-257).  Inputs beyond
the command line are made explicit: whether the config file exists
(`util.FileExists`) and the outcome of `toml.DecodeFile` on it.
Returns the `(conf, cmd, err)` triple plus the stream writes. -/
def ReadConfig (cl : CmdLine) (configFileExists : Bool)
    (iniResult : Except String IniConfig) : RCOut :=
  if cl.showHelp then
    { res := { conf := none, cmd := some .usage, err := none } }
  else
    match confAfterFile cl configFileExists iniResult with
    | .error e => { res := { conf := none, cmd := none, err := some e } }
    | .ok (conf1, warns1) =>
      match cl.args with
      | [] =>
        { res := { conf := none, cmd := some .usage,
                   err := some "no action specified on command line" }
          stderr := (confWithRepo conf1 warns1).2 }
      | a0 :: rest =>
        match actions a0 with
        | none =>
          { res := { conf := none, cmd := some .usage,
                     err := some ("unrecognized action " ++ a0) }
            stderr := (confWithRepo conf1 warns1).2 }
        | some act =>
          { res := { conf := some (confFinal cl (confDerived (confWithRepo conf1 warns1).1) rest),
                     cmd := some act, err := none }
            stderr := (confWithRepo conf1 warns1).2 }

/-- The value handed to `Config.inform`: Go's empty-interface argument
is either an `error` or any other value (printed as-is). -/
inductive InformArg where
  | errv (msg : String)
  | strv (s : String)
deriving DecidableEq

/-- Go method `(*Config).inform` (part_000 lines 259-267), with its
writes to (stdout, stderr) made explicit: unless `Quiet` is set it
writes one line to stderr — `warning: <err>` for errors, the value
itself otherwise — and it never writes to stdout. -/
def inform (c : Config) (v : InformArg) : List String × List String :=
  if !c.Quiet then
    match v with
    | .errv e => ([], ["warning: " ++ e])
    | .strv s => ([], [s])
  else ([], [])

/-- Go function `main` (part_000 lines 269-279), reduced to the process
exit status.  `run` models the body of whichever action function is
dispatched (its returned error, if any).  When `ReadConfig` fails, main
prints the error and exits 1; otherwise it calls `cmd(conf)` — whose
returned error is discarded — and exits normally (status 0). -/
def mainExit (cl : CmdLine) (configFileExists : Bool)
    (iniResult : Except String IniConfig)
    (run : ActionName → Config → Option String) : Nat :=
  match (ReadConfig cl configFileExists iniResult).res.err with
  | some _ => 1
  | none =>
    match (ReadConfig cl configFileExists iniResult).res.cmd,
          (ReadConfig cl configFileExists iniResult).res.conf with
    | some a, some c =>
      let _ := run a c
      0
    | _, _ => 0

/-! ## Package identity parser (spec §3, §4.1)

The parser/serializer implementation is not among the provided source
files; it is modelled from the spec. -/

/-- Modelled from the spec: the structured identity a package archive
filename decomposes into (spec §3, `PackageIdentity`); the `sourcePath`
bookkeeping field plays no role in the round-trip invariant and is
omitted.  Strings are represented as `List Char`. -/
structure PackageIdentity where
  name : List Char
  version : List Char
  release : List Char
  arch : List Char
deriving DecidableEq

/-- The dash separating the filename fields. -/
def dash : Char := '-'

/-- Modelled from the spec: parse a filename stem (the filename minus
its extension) of the canonical form `name-version-release-architecture`
(spec §3/§4.1); the decomposition must yield at least 4 dash-separated
fields, of which the trailing three are version, release and
architecture and the rest (re-joined by dashes) form the name.
Returns `none` on a malformed stem (`MalformedFilename`). -/
def parseStem (stem : List Char) : Option PackageIdentity :=
  if 4 ≤ (stem.splitOn dash).length then
    some { name := [dash].intercalate
             ((stem.splitOn dash).take ((stem.splitOn dash).length - 3))
           version := ((stem.splitOn dash).drop ((stem.splitOn dash).length - 3)).headD []
           release := ((stem.splitOn dash).drop ((stem.splitOn dash).length - 2)).headD []
           arch := ((stem.splitOn dash).drop ((stem.splitOn dash).length - 1)).headD [] }
  else none

/-- Modelled from the spec: re-serialize an identity to its canonical
filename stem `name-version-release-architecture`. -/
def serializeStem (p : PackageIdentity) : List Char :=
  p.name ++ [dash] ++ p.version ++ [dash] ++ p.release ++ [dash] ++ p.arch

/-- Modelled from the spec: parse a full package filename carrying the
given extension `ext` (the `.<ext>` part of the canonical format). -/
def parseFilename (ext F : List Char) : Option PackageIdentity :=
  if F.drop (F.length - ext.length) = ext then
    parseStem (F.take (F.length - ext.length))
  else none

/-- Modelled from the spec: re-serialize an identity to the full
canonical filename `name-version-release-architecture.<ext>`. -/
def serializeFilename (ext : List Char) (p : PackageIdentity) : List Char :=
  serializeStem p ++ ext

/-! ## Version comparator (spec §4.3)

The comparator implementation is not among the provided source files;
it is modelled from the spec: split off the epoch (default 0 if
absent), then compare by alternating numeric and alphabetic runs —
numeric runs by numeric value (leading zeros normalized), alphabetic
runs lexicographically, a present-alphabetic run against an exhausted
counterpart compares less, a present-numeric one greater. -/

/-- A maximal run of a version string: a numeric run (kept as its
numeric value, which normalizes leading zeros) or an alphabetic run
(kept as the list of character codes). -/
inductive VRun where
  | num (n : Nat)
  | alpha (s : List Nat)
deriving DecidableEq

/-- Three-way comparison of naturals. -/
def cmpN (a b : Nat) : Ordering :=
  if a < b then .lt else if b < a then .gt else .eq

/-- Lexicographic comparison of code lists (alphabetic runs). -/
def cmpNatList : List Nat → List Nat → Ordering
  | [], [] => .eq
  | [], _ :: _ => .lt
  | _ :: _, [] => .gt
  | a :: as, b :: bs => (cmpN a b).then (cmpNatList as bs)

/-- Modelled from the spec: compare two runs — numeric runs by value,
alphabetic runs lexicographically, and a numeric run sorts above an
alphabetic one (consistently with the spec's rule that an absent
counterpart beats alphabetic and loses to numeric). -/
def cmpRun : VRun → VRun → Ordering
  | .num a, .num b => cmpN a b
  | .alpha a, .alpha b => cmpNatList a b
  | .num _, .alpha _ => .gt
  | .alpha _, .num _ => .lt

/-- Modelled from the spec: compare two run sequences positionally;
when one sequence is exhausted, the side still holding an alphabetic
run is less ("1.0a" < "1.0") and the side still holding a numeric run
is greater ("1.0.1" > "1.0"). -/
def cmpRuns : List VRun → List VRun → Ordering
  | [], [] => .eq
  | [], .num _ :: _ => .lt
  | [], .alpha _ :: _ => .gt
  | .num _ :: _, [] => .gt
  | .alpha _ :: _, [] => .lt
  | x :: xs, y :: ys => (cmpRun x y).then (cmpRuns xs ys)

/-- Numeric value of a digit character. -/
def digitVal (c : Char) : Nat := c.toNat - 48

/-- Numeric value of a digit string. -/
def natOfDigits (l : List Char) : Nat :=
  l.foldl (fun n c => n * 10 + digitVal c) 0

/-- Tokenizer worker: walk the characters keeping the run being built;
separators (anything neither digit nor letter) end the current run. -/
def tokAux : Option VRun → List Char → List VRun
  | acc, [] => acc.toList
  | acc, c :: cs =>
    if c.isDigit then
      match acc with
      | some (.num n) => tokAux (some (.num (n * 10 + digitVal c))) cs
      | some (.alpha s) => .alpha s :: tokAux (some (.num (digitVal c))) cs
      | none => tokAux (some (.num (digitVal c))) cs
    else if c.isAlpha then
      match acc with
      | some (.alpha s) => tokAux (some (.alpha (s ++ [c.toNat]))) cs
      | some (.num n) => .num n :: tokAux (some (.alpha [c.toNat])) cs
      | none => tokAux (some (.alpha [c.toNat])) cs
    else
      match acc with
      | some r => r :: tokAux none cs
      | none => tokAux none cs

/-- Modelled from the spec: split a version string into its alternating
numeric and alphabetic runs. -/
def tokenize (s : List Char) : List VRun := tokAux none s

/-- Modelled from the spec: split off the epoch — the digits before a
`:`, defaulting to 0 when absent or not purely numeric. -/
def splitEpoch (s : List Char) : Nat × List Char :=
  match s.dropWhile (fun c => c ≠ ':') with
  | [] => (0, s)
  | _ :: rest =>
    let pre := s.takeWhile (fun c => c ≠ ':')
    if pre ≠ [] ∧ pre.all Char.isDigit then (natOfDigits pre, rest) else (0, s)

/-- Modelled from the spec: the Version Comparator on character lists —
epoch first (numerically), then the run sequences. -/
def vercmpL (a b : List Char) : Ordering :=
  (cmpN (splitEpoch a).1 (splitEpoch b).1).then
    (cmpRuns (tokenize (splitEpoch a).2) (tokenize (splitEpoch b).2))

/-- Modelled from the spec: the Version Comparator on version strings. -/
def vercmp (a b : String) : Ordering := vercmpL a.toList b.toList

/-! ## Action planner/executor: replacement ordering (spec §4.5)

The planner/executor implementation is not among the provided source
files; the replacement plan and its execution over an abstract
repository state are modelled from the spec. -/

/-- The shared on-disk state the executor mutates: the set of package
files in the repository directory, and the index entries, each a
package name paired with the package file it serves. -/
structure RepoState where
  disk : List String
  index : List (String × String)
deriving DecidableEq

/-- Modelled from the spec: the primitive mutations of the Action
Planner/Executor that a version replacement involves (spec §4.5). -/
inductive Mutation where
  | copyIntoRepo (file : String)
  | indexAdd (name file : String)
  | deleteOrBackup (file : String)
deriving DecidableEq

/-- Modelled from the spec: effect of one primitive mutation.  An index
add for a name replaces that name's entry (the index holds one entry
per package name); delete-or-backup removes the file from the
repository directory either way. -/
def applyMutation (s : RepoState) : Mutation → RepoState
  | .copyIntoRepo f => { s with disk := f :: s.disk }
  | .indexAdd n f => { s with index := (n, f) :: s.index.filter (fun e => e.1 ≠ n) }
  | .deleteOrBackup f => { s with disk := s.disk.filter (fun g => g ≠ f) }

/-- Modelled from the spec: the ordered plan for replacing version V1
(file `v1file`) of package `name` by version V2 (file `v2file`):
copy/move the new file in, then add it to the index, then
delete-or-backup the old file (spec §4.5, ordering rule). -/
def replacePlan (name v2file v1file : String) : List Mutation :=
  [.copyIntoRepo v2file, .indexAdd name v2file, .deleteOrBackup v1file]

/-- All states reached while executing a plan sequentially, the initial
and final states included. -/
def execStates (s : RepoState) : List Mutation → List RepoState
  | [] => [s]
  | m :: ms => s :: execStates (applyMutation s m) ms

/-- The crash-safety invariant: every file the index references is
present on disk. -/
def indexOK (s : RepoState) : Prop := ∀ e ∈ s.index, e.2 ∈ s.disk

/-! ## Backup policy (spec §4.5; part_000 lines 75-77 and 142-146)

The disposal implementation is not among the provided source files; it
is modelled from the spec and the source's own documentation: with
backup mode on, an obsolete file is moved into the `backup/`
subdirectory with the added suffix `.bak` rather than deleted; with it
off, the file is deleted outright. -/

/-- The backed-up location of an obsolete file: inside the `backup/`
subdirectory, with the `.bak` suffix added. -/
def backupName (file : String) : String := "backup/" ++ file ++ ".bak"

/-- Modelled from the spec: dispose of one obsolete package file,
according to the backup mode. -/
def disposeObsolete (backup : Bool) (disk : List String) (file : String) : List String :=
  if backup then backupName file :: disk.filter (fun g => g ≠ file)
  else disk.filter (fun g => g ≠ file)

/-! ## Properties of the version comparator -/

theorem cmpN_eq_iff {a b : Nat} : cmpN a b = .eq ↔ a = b := by
  unfold cmpN
  rcases Nat.lt_trichotomy a b with h | h | h
  · rw [if_pos h]
    simp only [reduceCtorEq, false_iff]
    omega
  · subst h
    rw [if_neg (lt_irrefl a), if_neg (lt_irrefl a)]
    simp
  · rw [if_neg (by omega), if_pos h]
    simp only [reduceCtorEq, false_iff]
    omega

theorem cmpN_lt_iff {a b : Nat} : cmpN a b = .lt ↔ a < b := by
  unfold cmpN
  rcases Nat.lt_trichotomy a b with h | h | h
  · rw [if_pos h]
    simp [h]
  · subst h
    rw [if_neg (lt_irrefl a), if_neg (lt_irrefl a)]
    simp
  · rw [if_neg (by omega), if_pos h]
    simp only [reduceCtorEq, false_iff]
    omega

theorem cmpN_swap (a b : Nat) : (cmpN a b).swap = cmpN b a := by
  unfold cmpN
  rcases Nat.lt_trichotomy a b with h | h | h
  · rw [if_pos h, if_neg (by omega), if_pos h]
    rfl
  · subst h
    rw [if_neg (lt_irrefl a), if_neg (lt_irrefl a)]
    rfl
  · rw [if_neg (by omega), if_pos h, if_pos h]
    rfl

theorem cmpN_lt_trans {a b c : Nat} (h1 : cmpN a b = .lt) (h2 : cmpN b c = .lt) :
    cmpN a c = .lt :=
  cmpN_lt_iff.2 (Nat.lt_trans (cmpN_lt_iff.1 h1) (cmpN_lt_iff.1 h2))

theorem cmpNatList_eq_iff : ∀ (a b : List Nat), cmpNatList a b = .eq ↔ a = b
  | [], [] => by simp [cmpNatList]
  | [], _ :: _ => by simp [cmpNatList]
  | _ :: _, [] => by simp [cmpNatList]
  | a :: as, b :: bs => by
    simp [cmpNatList, Ordering.then_eq_eq, cmpN_eq_iff, cmpNatList_eq_iff as bs]

theorem cmpNatList_swap : ∀ (a b : List Nat), (cmpNatList a b).swap = cmpNatList b a
  | [], [] => rfl
  | [], _ :: _ => rfl
  | _ :: _, [] => rfl
  | a :: as, b :: bs => by
    simp only [cmpNatList, Ordering.swap_then, cmpN_swap, cmpNatList_swap as bs]

theorem cmpNatList_lt_trans : ∀ (a b c : List Nat),
    cmpNatList a b = .lt → cmpNatList b c = .lt → cmpNatList a c = .lt
  | [], [], _, h1, _ => by simp [cmpNatList] at h1
  | [], _ :: _, [], _, h2 => by simp [cmpNatList] at h2
  | [], _ :: _, _ :: _, _, _ => by simp [cmpNatList]
  | _ :: _, [], _, h1, _ => by simp [cmpNatList] at h1
  | _ :: _, _ :: _, [], _, h2 => by simp [cmpNatList] at h2
  | a :: as, b :: bs, c :: cs, h1, h2 => by
    simp only [cmpNatList, Ordering.then_eq_lt] at h1 h2 ⊢
    rcases h1 with hab | ⟨hab, t1⟩
    · rcases h2 with hbc | ⟨hbc, t2⟩
      · exact Or.inl (cmpN_lt_trans hab hbc)
      · have hb := cmpN_eq_iff.1 hbc
        subst hb
        exact Or.inl hab
    · have ha := cmpN_eq_iff.1 hab
      subst ha
      rcases h2 with hbc | ⟨hbc, t2⟩
      · exact Or.inl hbc
      · have hb := cmpN_eq_iff.1 hbc
        subst hb
        exact Or.inr ⟨cmpN_eq_iff.2 rfl, cmpNatList_lt_trans as bs cs t1 t2⟩

theorem cmpRun_eq_iff : ∀ (x y : VRun), cmpRun x y = .eq ↔ x = y
  | .num a, .num b => by simp [cmpRun, cmpN_eq_iff]
  | .alpha a, .alpha b => by simp [cmpRun, cmpNatList_eq_iff a b]
  | .num _, .alpha _ => by simp [cmpRun]
  | .alpha _, .num _ => by simp [cmpRun]

theorem cmpRun_swap : ∀ (x y : VRun), (cmpRun x y).swap = cmpRun y x
  | .num a, .num b => by simp [cmpRun, cmpN_swap]
  | .alpha a, .alpha b => by simp [cmpRun, cmpNatList_swap a b]
  | .num _, .alpha _ => rfl
  | .alpha _, .num _ => rfl

theorem cmpRun_lt_trans : ∀ (x y z : VRun),
    cmpRun x y = .lt → cmpRun y z = .lt → cmpRun x z = .lt
  | .num a, .num b, .num c, h1, h2 => cmpN_lt_trans h1 h2
  | .num _, .num _, .alpha _, _, h2 => by simp [cmpRun] at h2
  | .num _, .alpha _, _, h1, _ => by simp [cmpRun] at h1
  | .alpha _, .num _, .num _, _, _ => rfl
  | .alpha _, .num _, .alpha _, _, h2 => by simp [cmpRun] at h2
  | .alpha _, .alpha _, .num _, _, _ => rfl
  | .alpha a, .alpha b, .alpha c, h1, h2 => cmpNatList_lt_trans a b c h1 h2

theorem cmpRuns_eq_iff : ∀ (a b : List VRun), cmpRuns a b = .eq ↔ a = b
  | [], [] => by simp [cmpRuns]
  | [], .num _ :: _ => by simp [cmpRuns]
  | [], .alpha _ :: _ => by simp [cmpRuns]
  | .num _ :: _, [] => by simp [cmpRuns]
  | .alpha _ :: _, [] => by simp [cmpRuns]
  | x :: xs, y :: ys => by
    simp [cmpRuns, Ordering.then_eq_eq, cmpRun_eq_iff x y, cmpRuns_eq_iff xs ys]

theorem cmpRuns_swap : ∀ (a b : List VRun), (cmpRuns a b).swap = cmpRuns b a
  | [], [] => rfl
  | [], .num _ :: _ => rfl
  | [], .alpha _ :: _ => rfl
  | .num _ :: _, [] => rfl
  | .alpha _ :: _, [] => rfl
  | x :: xs, y :: ys => by
    simp only [cmpRuns, Ordering.swap_then, cmpRun_swap x y, cmpRuns_swap xs ys]

theorem cmpRuns_lt_trans : ∀ (a b c : List VRun),
    cmpRuns a b = .lt → cmpRuns b c = .lt → cmpRuns a c = .lt
  | [], [], _, h1, _ => by simp [cmpRuns] at h1
  | [], .alpha _ :: _, _, h1, _ => by simp [cmpRuns] at h1
  | [], .num _ :: _, [], _, h2 => by simp [cmpRuns] at h2
  | [], .num _ :: _, .num _ :: _, _, _ => by simp [cmpRuns]
  | [], .num _ :: _, .alpha _ :: _, _, h2 => by
    simp [cmpRuns, cmpRun, Ordering.then] at h2
  | .num _ :: _, [], _, h1, _ => by simp [cmpRuns] at h1
  | .alpha _ :: _, [], [], _, h2 => by simp [cmpRuns] at h2
  | .alpha _ :: _, [], .alpha _ :: _, _, h2 => by simp [cmpRuns] at h2
  | .alpha _ :: _, [], .num _ :: _, _, _ => by
    simp [cmpRuns, cmpRun, Ordering.then]
  | x :: xs, y :: ys, [], h1, h2 => by
    cases y with
    | num m => simp [cmpRuns, cmpRun, Ordering.then] at h2
    | alpha s =>
      simp only [cmpRuns, Ordering.then_eq_lt] at h1
      rcases h1 with hxy | ⟨hxy, _⟩
      · cases x with
        | num m2 => simp [cmpRun] at hxy
        | alpha t => simp [cmpRuns]
      · have hx := (cmpRun_eq_iff x (.alpha s)).1 hxy
        subst hx
        simp [cmpRuns]
  | x :: xs, y :: ys, z :: zs, h1, h2 => by
    simp only [cmpRuns, Ordering.then_eq_lt] at h1 h2 ⊢
    rcases h1 with hxy | ⟨hxy, t1⟩
    · rcases h2 with hyz | ⟨hyz, t2⟩
      · exact Or.inl (cmpRun_lt_trans x y z hxy hyz)
      · have hy := (cmpRun_eq_iff y z).1 hyz
        subst hy
        exact Or.inl hxy
    · have hx := (cmpRun_eq_iff x y).1 hxy
      subst hx
      rcases h2 with hyz | ⟨hyz, t2⟩
      · exact Or.inl hyz
      · have hy := (cmpRun_eq_iff x z).1 hyz
        subst hy
        exact Or.inr ⟨(cmpRun_eq_iff x x).2 rfl, cmpRuns_lt_trans xs ys zs t1 t2⟩

theorem vercmpL_swap (a b : List Char) : (vercmpL a b).swap = vercmpL b a := by
  unfold vercmpL
  rw [Ordering.swap_then, cmpN_swap, cmpRuns_swap]

theorem vercmpL_lt_trans (a b c : List Char)
    (h1 : vercmpL a b = .lt) (h2 : vercmpL b c = .lt) : vercmpL a c = .lt := by
  unfold vercmpL at h1 h2 ⊢
  rcases Ordering.then_eq_lt.1 h1 with hab | ⟨hab, tab⟩ <;>
    rcases Ordering.then_eq_lt.1 h2 with hbc | ⟨hbc, tbc⟩
  · exact Ordering.then_eq_lt.2 (Or.inl (cmpN_lt_trans hab hbc))
  · rw [cmpN_eq_iff.1 hbc] at hab
    exact Ordering.then_eq_lt.2 (Or.inl hab)
  · rw [← cmpN_eq_iff.1 hab] at hbc
    exact Ordering.then_eq_lt.2 (Or.inl hbc)
  · refine Ordering.then_eq_lt.2 (Or.inr ⟨?_, ?_⟩)
    · rw [cmpN_eq_iff.1 hab]
      exact hbc
    · exact cmpRuns_lt_trans _ _ _ tab tbc

/-- C5: the Version Comparator is a strict total order on version
strings — swap-antisymmetric (`cmp a b` is always the swap of
`cmp b a`, so `a < b` iff `b > a`), transitive, and total (every pair
compares to exactly one of lt/eq/gt; determinism holds because the
comparator is a pure function) — and it orders "1.0a" strictly below
"1.0" and "1.0.1" strictly above "1.0". -/
theorem C5_version_comparator_strict_total_order :
    (∀ a b : String, (vercmp a b).swap = vercmp b a) ∧
    (∀ a b : String, vercmp a b = .lt → vercmp b a = .gt) ∧
    (∀ a b c : String, vercmp a b = .lt → vercmp b c = .lt → vercmp a c = .lt) ∧
    (∀ a b : String, vercmp a b = .lt ∨ vercmp a b = .eq ∨ vercmp a b = .gt) ∧
    vercmp "1.0a" "1.0" = .lt ∧ vercmp "1.0.1" "1.0" = .gt := by
  refine ⟨fun a b => vercmpL_swap _ _, ?_, fun a b c => vercmpL_lt_trans _ _ _, ?_, ?_, ?_⟩
  · intro a b h
    unfold vercmp at h ⊢
    rw [← vercmpL_swap a.toList b.toList, h]
    rfl
  · intro a b
    rcases h : vercmp a b with _ | _ | _
    · exact Or.inl rfl
    · exact Or.inr (Or.inl rfl)
    · exact Or.inr (Or.inr rfl)
  · decide
  · decide

/-- Witness for C5: transitivity applied at the concrete chain
"1.0" < "1.1" < "2.0". -/
theorem C5_version_comparator_strict_total_order_witness :
    vercmp "1.0" "1.1" = .lt ∧ vercmp "1.1" "2.0" = .lt ∧ vercmp "1.0" "2.0" = .lt :=
  ⟨by decide, by decide,
    C5_version_comparator_strict_total_order.2.2.1 "1.0" "1.1" "2.0" (by decide) (by decide)⟩

/-! ## Properties of the package filename parser -/

theorem intercalate_cons_cons (s a b : List Char) (t : List (List Char)) :
    List.intercalate s (a :: b :: t) = a ++ s ++ List.intercalate s (b :: t) := by
  simp [List.intercalate, List.flatten, List.append_assoc]

theorem intercalate_append_ne (s : List Char) :
    ∀ (l1 l2 : List (List Char)), l1 ≠ [] → l2 ≠ [] →
      List.intercalate s (l1 ++ l2) =
        List.intercalate s l1 ++ s ++ List.intercalate s l2
  | [], _, h1, _ => absurd rfl h1
  | [a], [], _, h2 => absurd rfl h2
  | [a], b :: t, _, _ => by
    simp only [List.cons_append, List.nil_append]
    rw [intercalate_cons_cons]
    simp [List.intercalate]
  | a :: a2 :: t1, l2, _, h2 => by
    have ih := intercalate_append_ne s (a2 :: t1) l2 (by simp) h2
    have hcons : ∃ b t, (a2 :: t1) ++ l2 = b :: t := ⟨a2, t1 ++ l2, by simp⟩
    rcases hcons with ⟨b, t, hbt⟩
    calc List.intercalate s ((a :: a2 :: t1) ++ l2)
        = List.intercalate s (a :: ((a2 :: t1) ++ l2)) := by simp
      _ = a ++ s ++ List.intercalate s ((a2 :: t1) ++ l2) := by
          rw [hbt, intercalate_cons_cons]
      _ = a ++ s ++ (List.intercalate s (a2 :: t1) ++ s ++ List.intercalate s l2) := by
          rw [ih]
      _ = List.intercalate s (a :: a2 :: t1) ++ s ++ List.intercalate s l2 := by
          rw [intercalate_cons_cons]
          simp [List.append_assoc]

theorem parseStem_serializeStem (stem : List Char) (p : PackageIdentity)
    (h : parseStem stem = some p) : serializeStem p = stem := by
  unfold parseStem at h
  split at h
  case isFalse => simp at h
  case isTrue h4 =>
    rw [Option.some_inj] at h
    subst h
    have hlen3 : ((stem.splitOn dash).drop ((stem.splitOn dash).length - 3)).length = 3 := by
      rw [List.length_drop]
      omega
    rcases List.length_eq_three.1 hlen3 with ⟨v, r, a, hvra⟩
    have hd2 : (stem.splitOn dash).drop ((stem.splitOn dash).length - 2) = [r, a] := by
      have : ((stem.splitOn dash).drop ((stem.splitOn dash).length - 3)).drop 1 =
          (stem.splitOn dash).drop ((stem.splitOn dash).length - 2) := by
        rw [List.drop_drop]
        congr 1
        omega
      rw [← this, hvra]
      rfl
    have hd1 : (stem.splitOn dash).drop ((stem.splitOn dash).length - 1) = [a] := by
      have : ((stem.splitOn dash).drop ((stem.splitOn dash).length - 3)).drop 2 =
          (stem.splitOn dash).drop ((stem.splitOn dash).length - 1) := by
        rw [List.drop_drop]
        congr 1
        omega
      rw [← this, hvra]
      rfl
    have htake : (stem.splitOn dash).take ((stem.splitOn dash).length - 3) ≠ [] := by
      intro hemp
      have := congrArg List.length hemp
      rw [List.length_take] at this
      simp at this
      omega
    unfold serializeStem
    simp only [hvra, hd2, hd1, List.headD_cons]
    have hsplit : (stem.splitOn dash).take ((stem.splitOn dash).length - 3) ++ [v, r, a] =
        stem.splitOn dash := by
      rw [← hvra]
      exact List.take_append_drop _ _
    have hioin : List.intercalate [dash]
        ((stem.splitOn dash).take ((stem.splitOn dash).length - 3) ++ [v, r, a]) =
        List.intercalate [dash] ((stem.splitOn dash).take ((stem.splitOn dash).length - 3))
          ++ [dash] ++ List.intercalate [dash] [v, r, a] := by
      exact intercalate_append_ne [dash] _ _ htake (by simp)
    have hvra3 : List.intercalate [dash] [v, r, a] = v ++ [dash] ++ r ++ [dash] ++ a := by
      rw [intercalate_cons_cons, intercalate_cons_cons]
      simp [List.intercalate, List.append_assoc]
    rw [hsplit] at hioin
    rw [List.intercalate_splitOn] at hioin
    rw [hvra3] at hioin
    simp only [List.append_assoc] at hioin ⊢
    exact hioin.symm

/-- C4: for every well-formed package filename, parsing it into a
`PackageIdentity` and re-serializing reproduces the filename
byte-identically. -/
theorem C4_parse_serialize_roundtrip (ext F : List Char) (p : PackageIdentity)
    (h : parseFilename ext F = some p) : serializeFilename ext p = F := by
  unfold parseFilename at h
  split at h
  case isFalse => simp at h
  case isTrue hdrop =>
    have hta : F.take (F.length - ext.length) ++ F.drop (F.length - ext.length) = F :=
      List.take_append_drop _ _
    rw [hdrop] at hta
    unfold serializeFilename
    rw [parseStem_serializeStem _ _ h]
    exact hta

/-- Witness for C4: the filename `pkg-name-1.0-1-x86_64.pkg.tar.xz`
(whose name itself contains a dash) parses and re-serializes to
itself. -/
theorem C4_parse_serialize_roundtrip_witness :
    serializeFilename ".pkg.tar.xz".toList
      { name := "pkg-name".toList, version := "1.0".toList,
        release := "1".toList, arch := "x86_64".toList } =
      "pkg-name-1.0-1-x86_64.pkg.tar.xz".toList :=
  C4_parse_serialize_roundtrip ".pkg.tar.xz".toList
    "pkg-name-1.0-1-x86_64.pkg.tar.xz".toList _ (by decide)

/-! ## Properties of the replacement plan and backup policy -/

/-- C3: replacing version V1 by V2 of the same package plans the
mutations in the order copy-in, index-add, delete-or-backup, and —
provided the index was consistent, the old file is referenced only by
the package being replaced, and the two files differ — every
intermediate state of the execution (initial and final included)
satisfies the invariant that the index references no file absent from
disk. -/
theorem C3_replacement_order_preserves_index (s : RepoState) (name v2file v1file : String)
    (hok : indexOK s)
    (hold : ∀ e ∈ s.index, e.2 = v1file → e.1 = name)
    (hne : v2file ≠ v1file) :
    replacePlan name v2file v1file =
      [.copyIntoRepo v2file, .indexAdd name v2file, .deleteOrBackup v1file] ∧
    ∀ s' ∈ execStates s (replacePlan name v2file v1file), indexOK s' := by
  refine ⟨rfl, ?_⟩
  intro s' hs'
  simp only [replacePlan, execStates, applyMutation, List.mem_cons,
    List.not_mem_nil, or_false, List.mem_singleton] at hs'
  rcases hs' with h | h | h | h
  · subst h
    exact hok
  · subst h
    intro e he
    exact List.mem_cons_of_mem _ (hok e he)
  · subst h
    intro e he
    rcases List.mem_cons.1 he with h' | h'
    · subst h'
      exact List.mem_cons_self _ _
    · exact List.mem_cons_of_mem _ (hok e (List.mem_of_mem_filter h'))
  · subst h
    intro e he
    rcases List.mem_cons.1 he with h' | h'
    · subst h'
      simp [List.mem_filter, hne]
    · have hmem := List.mem_of_mem_filter h'
      have hfst : ¬ e.1 = name := by
        have := (List.mem_filter.1 h').2
        simpa using this
      have hdisk := hok e hmem
      simp only [List.mem_filter, List.mem_cons]
      refine ⟨Or.inr hdisk, ?_⟩
      simp only [decide_eq_true_eq]
      intro hef
      exact hfst (hold e hmem hef)

/-- Witness for C3: a concrete replacement of `a-1.0` by `a-1.1` for
package `a`, next to an unrelated indexed package `b`. -/
theorem C3_replacement_order_preserves_index_witness :
    replacePlan "a" "a-1.1" "a-1.0" =
      [.copyIntoRepo "a-1.1", .indexAdd "a" "a-1.1", .deleteOrBackup "a-1.0"] ∧
    ∀ s' ∈ execStates { disk := ["a-1.0", "b-2.0"], index := [("a", "a-1.0"), ("b", "b-2.0")] }
      (replacePlan "a" "a-1.1" "a-1.0"), indexOK s' :=
  C3_replacement_order_preserves_index
    { disk := ["a-1.0", "b-2.0"], index := [("a", "a-1.0"), ("b", "b-2.0")] }
    "a" "a-1.1" "a-1.0" (by unfold indexOK; decide) (by decide) (by decide)

/-- The backed-up name differs from the original (it is strictly
longer). -/
theorem backupName_ne (file : String) : backupName file ≠ file := by
  intro h
  have hlen := congrArg String.length h
  rw [backupName, String.length_append, String.length_append] at hlen
  have h7 : ("backup/" : String).length = 7 := rfl
  have h4 : (".bak" : String).length = 4 := rfl
  omega

/-- C6: disposing of an obsolete file with backup mode on moves it to
the backup subdirectory under its `.bak`-suffixed name and does not
delete any other file; with backup mode off the file is deleted
outright — absent from disk afterwards — and nothing is added. -/
theorem C6_backup_policy (disk : List String) (file g : String)
    (hg : g ∈ disk) (hne : g ≠ file) :
    (file ∉ disposeObsolete true disk file ∧
     backupName file ∈ disposeObsolete true disk file ∧
     g ∈ disposeObsolete true disk file) ∧
    (file ∉ disposeObsolete false disk file ∧
     g ∈ disposeObsolete false disk file ∧
     ∀ x ∈ disposeObsolete false disk file, x ∈ disk) := by
  unfold disposeObsolete
  simp only [if_pos rfl, if_neg]
  constructor
  · refine ⟨?_, List.mem_cons_self _ _, ?_⟩
    · intro hmem
      rcases List.mem_cons.1 hmem with h | h
      · exact backupName_ne file h.symm
      · have := (List.mem_filter.1 h).2
        simp at this
    · exact List.mem_cons_of_mem _ (List.mem_filter.2 ⟨hg, by simp [hne]⟩)
  · refine ⟨?_, List.mem_filter.2 ⟨hg, by simp [hne]⟩, ?_⟩
    · intro hmem
      have := (List.mem_filter.1 hmem).2
      simp at this
    · intro x hx
      exact List.mem_of_mem_filter hx

/-- Witness for C6 at a concrete two-file repository. -/
theorem C6_backup_policy_witness :
    ("a.pkg" ∉ disposeObsolete true ["a.pkg", "b.pkg"] "a.pkg" ∧
     backupName "a.pkg" ∈ disposeObsolete true ["a.pkg", "b.pkg"] "a.pkg" ∧
     "b.pkg" ∈ disposeObsolete true ["a.pkg", "b.pkg"] "a.pkg") ∧
    ("a.pkg" ∉ disposeObsolete false ["a.pkg", "b.pkg"] "a.pkg" ∧
     "b.pkg" ∈ disposeObsolete false ["a.pkg", "b.pkg"] "a.pkg" ∧
     ∀ x ∈ disposeObsolete false ["a.pkg", "b.pkg"] "a.pkg", x ∈ ["a.pkg", "b.pkg"]) :=
  C6_backup_policy ["a.pkg", "b.pkg"] "a.pkg" "b.pkg" (by decide) (by decide)

/-! ## Properties of configuration reading and the command-line front end -/

theorem confFinal_Repository (cl : CmdLine) (c : Config) (rest : List String) :
    (confFinal cl c rest).Repository = c.Repository := by
  unfold confFinal
  split <;> rfl

theorem confFinal_path (cl : CmdLine) (c : Config) (rest : List String) :
    (confFinal cl c rest).path = c.path := by
  unfold confFinal
  split <;> rfl

theorem confFinal_database (cl : CmdLine) (c : Config) (rest : List String) :
    (confFinal cl c rest).database = c.database := by
  unfold confFinal
  split <;> rfl

theorem confDerived_Repository (c : Config) : (confDerived c).Repository = c.Repository := rfl

theorem confDerived_path (c : Config) : (confDerived c).path = pathDir c.Repository := rfl

theorem confDerived_database (c : Config) :
    (confDerived c).database = pathBase c.Repository := rfl

theorem confWithRepo_fst_Repository (c : Config) (w : List String) :
    (confWithRepo c w).1.Repository =
      if c.Repository = "" then defaultRepo else c.Repository := by
  unfold confWithRepo
  split <;> simp_all

theorem confWithRepo_fst_ne (c : Config) (w : List String) :
    (confWithRepo c w).1.Repository ≠ "" := by
  rw [confWithRepo_fst_Repository]
  split
  · decide
  · assumption

theorem confWithRepo_snd_mem (c : Config) (w : List String) (x : String) (hx : x ∈ w) :
    x ∈ (confWithRepo c w).2 := by
  unfold confWithRepo
  split
  · exact List.mem_append_left _ hx
  · exact hx

theorem confAfterFile_false (cl : CmdLine) (ini : Except String IniConfig) :
    confAfterFile cl false ini =
      .ok (initialConf cl,
        ["Warning: missing config file " ++ goQuote cl.configFile ++ "."]) := rfl

theorem confAfterFile_true_ok (cl : CmdLine) (i : IniConfig) :
    confAfterFile cl true (.ok i) = .ok (readIniInto i (initialConf cl), []) := rfl

theorem confAfterFile_Repository {cl : CmdLine} {ce : Bool} {ini : Except String IniConfig}
    {c1 : Config} {w : List String} (hne : cl.repoFlag ≠ "")
    (h : confAfterFile cl ce ini = .ok (c1, w)) : c1.Repository = cl.repoFlag := by
  unfold confAfterFile at h
  split at h
  · cases ini with
    | ok i =>
      simp only [Except.ok.injEq, Prod.mk.injEq] at h
      rw [← h.1]
      unfold readIniInto initialConf
      simp [hne]
    | error e => simp at h
  · simp only [Except.ok.injEq, Prod.mk.injEq] at h
    rw [← h.1]
    unfold initialConf
    simp

theorem ReadConfig_conf_some {cl : CmdLine} {ce : Bool} {ini : Except String IniConfig}
    {c : Config} (h : (ReadConfig cl ce ini).res.conf = some c) :
    ∃ conf1 warns1 rest,
      confAfterFile cl ce ini = .ok (conf1, warns1) ∧
      c = confFinal cl (confDerived (confWithRepo conf1 warns1).1) rest := by
  unfold ReadConfig at h
  split at h
  · simp at h
  · split at h
    · simp at h
    · split at h
      · simp at h
      · split at h
        · simp at h
        · simp only [Option.some_inj] at h
          exact ⟨_, _, _, by assumption, h.symm⟩

/-- C9: a repository supplied with --repo is never overwritten by the
config file: `readIniInto` takes the file's repo only when the
repository is still empty, always takes the add/remove parameters from
the file, and any `Config` produced by `ReadConfig` keeps the --repo
value whenever one was given. -/
theorem C9_repo_flag_precedence :
    (∀ ini conf, conf.Repository ≠ "" →
      (readIniInto ini conf).Repository = conf.Repository) ∧
    (∀ ini conf, conf.Repository = "" →
      (readIniInto ini conf).Repository = ini.Repo) ∧
    (∀ ini conf, (readIniInto ini conf).AddParameters = ini.AddParam ∧
      (readIniInto ini conf).RemoveParameters = ini.RmParam) ∧
    (∀ cl ce ini c, cl.repoFlag ≠ "" →
      (ReadConfig cl ce ini).res.conf = some c → c.Repository = cl.repoFlag) := by
  refine ⟨?_, ?_, ?_, ?_⟩
  · intro ini conf hne
    unfold readIniInto
    simp [hne]
  · intro ini conf he
    unfold readIniInto
    simp [he]
  · intro ini conf
    exact ⟨rfl, rfl⟩
  · intro cl ce ini c hne hconf
    rcases ReadConfig_conf_some hconf with ⟨conf1, warns1, rest, heq, hc⟩
    have h1 := confAfterFile_Repository hne heq
    subst hc
    rw [confFinal_Repository, confDerived_Repository, confWithRepo_fst_Repository, h1,
      if_neg hne]

/-- Witness for C9: with `--repo /x/y.db` on the command line and a
config file supplying a different repository, the resulting
configuration keeps `/x/y.db`. -/
theorem C9_repo_flag_precedence_witness :
    ((ReadConfig { repoFlag := "/x/y.db", args := ["list"] } true
        (.ok { Repo := "/other.db" })).res.conf.getD {}).Repository = "/x/y.db" :=
  C9_repo_flag_precedence.2.2.2 { repoFlag := "/x/y.db", args := ["list"] } true
    (.ok { Repo := "/other.db" }) _ (by decide) (by decide)

/-- C10 (amended): `NewConfig repo` always establishes
`path = Dir(repo)` and `database = Base(repo)` with `Repository = repo`
— but performs no default substitution, so its Repository is empty
when its argument is; every `Config` returned by `ReadConfig`
satisfies `path = Dir(Repository)`, `database = Base(Repository)` and
`Repository ≠ ""`, with the default `/srv/abs/atlas.db.tar.gz`
substituted when neither --repo nor the config file supplies one. -/
theorem C10_config_invariant :
    (∀ repo, (NewConfig repo).Repository = repo ∧
      (NewConfig repo).path = pathDir repo ∧
      (NewConfig repo).database = pathBase repo) ∧
    (∀ cl ce ini c, (ReadConfig cl ce ini).res.conf = some c →
      c.path = pathDir c.Repository ∧ c.database = pathBase c.Repository ∧
      c.Repository ≠ "") ∧
    (∀ cl ini c, cl.repoFlag = "" → (ReadConfig cl false ini).res.conf = some c →
      c.Repository = defaultRepo) ∧
    (∀ cl i c, cl.repoFlag = "" → i.Repo = "" →
      (ReadConfig cl true (.ok i)).res.conf = some c → c.Repository = defaultRepo) := by
  refine ⟨fun repo => ⟨rfl, rfl, rfl⟩, ?_, ?_, ?_⟩
  · intro cl ce ini c hconf
    rcases ReadConfig_conf_some hconf with ⟨conf1, warns1, rest, heq, hc⟩
    subst hc
    refine ⟨?_, ?_, ?_⟩
    · rw [confFinal_path, confFinal_Repository, confDerived_path, confDerived_Repository]
    · rw [confFinal_database, confFinal_Repository, confDerived_database,
        confDerived_Repository]
    · rw [confFinal_Repository, confDerived_Repository]
      exact confWithRepo_fst_ne conf1 warns1
  · intro cl ini c hflag hconf
    rcases ReadConfig_conf_some hconf with ⟨conf1, warns1, rest, heq, hc⟩
    rw [confAfterFile_false] at heq
    simp only [Except.ok.injEq, Prod.mk.injEq] at heq
    subst hc
    rw [confFinal_Repository, confDerived_Repository, confWithRepo_fst_Repository, ← heq.1]
    have : (initialConf cl).Repository = cl.repoFlag := rfl
    rw [this, hflag]
    rfl
  · intro cl i c hflag hrepo hconf
    rcases ReadConfig_conf_some hconf with ⟨conf1, warns1, rest, heq, hc⟩
    rw [confAfterFile_true_ok] at heq
    simp only [Except.ok.injEq, Prod.mk.injEq] at heq
    subst hc
    rw [confFinal_Repository, confDerived_Repository, confWithRepo_fst_Repository, ← heq.1]
    have : (readIniInto i (initialConf cl)).Repository = i.Repo := by
      unfold readIniInto initialConf
      simp [hflag]
    rw [this, hrepo]
    rfl

/-- Counterexample for C10 as stated: `NewConfig ""` completes
configuration construction with an empty Repository — no default is
substituted — contradicting the claimed "Repository non-empty". -/
theorem C10_config_invariant_counterexample :
    (NewConfig "").Repository = "" ∧ (NewConfig "").Repository ≠ defaultRepo := by
  exact ⟨rfl, by decide⟩

/-- Witness for C10 at a concrete `ReadConfig` call. -/
theorem C10_config_invariant_witness :
    (((ReadConfig { args := ["list"] } false (.ok {})).res.conf.getD {}).path =
      pathDir (((ReadConfig { args := ["list"] } false (.ok {})).res.conf.getD {}).Repository)) ∧
    (((ReadConfig { args := ["list"] } false (.ok {})).res.conf.getD {}).database =
      pathBase (((ReadConfig { args := ["list"] } false (.ok {})).res.conf.getD {}).Repository)) ∧
    ((ReadConfig { args := ["list"] } false (.ok {})).res.conf.getD {}).Repository ≠ "" :=
  C10_config_invariant.2.1 { args := ["list"] } false (.ok {}) _ (by decide)

/-- C1 (amended): the exit status is 1 exactly when `ReadConfig` fails
(unrecognized operation, no operation given, or unreadable config
file); an unrecognized operation is fatal, surfaced immediately, and
no action is dispatched for it (the exit status is independent of the
action bodies altogether); but the error returned by the dispatched
action — the only channel through which a failed planned mutation or
an invalid filter criterion could surface — is discarded by `main`
(part_000 line 278), so the exit status is 0 whenever an action runs,
even if its mutations fail. -/
theorem C1_exit_status :
    (∀ cl ce ini run e, (ReadConfig cl ce ini).res.err = some e →
      mainExit cl ce ini run = 1) ∧
    (∀ cl ce ini run, (ReadConfig cl ce ini).res.err = none →
      mainExit cl ce ini run = 0) ∧
    (∀ cl ce ini run run', mainExit cl ce ini run = mainExit cl ce ini run') ∧
    (∀ cl ini a0 rest, cl.showHelp = false → cl.args = a0 :: rest → actions a0 = none →
      (ReadConfig cl false ini).res.err = some ("unrecognized action " ++ a0) ∧
      (ReadConfig cl false ini).res.conf = none) := by
  refine ⟨?_, ?_, ?_, ?_⟩
  · intro cl ce ini run e h
    unfold mainExit
    rw [h]
  · intro cl ce ini run h
    unfold mainExit
    rw [h]
    cases (ReadConfig cl ce ini).res.cmd <;> cases (ReadConfig cl ce ini).res.conf <;> rfl
  · intro cl ce ini run run'
    unfold mainExit
    cases (ReadConfig cl ce ini).res.err
    · cases (ReadConfig cl ce ini).res.cmd <;> cases (ReadConfig cl ce ini).res.conf <;> rfl
    · rfl
  · intro cl ini a0 rest hsh hargs hact
    constructor <;> simp [ReadConfig, confAfterFile, hsh, hargs, hact]

/-- Counterexample for C1 as stated: a run whose dispatched action
reports a failure (as a failed planned mutation does) still exits with
status 0, because `main` discards the action's returned error. -/
theorem C1_exit_status_counterexample :
    mainExit { args := ["update"] } false (.ok {}) (fun _ _ => some "mutation failed") = 0 := by
  decide

/-- Witness for C1: an unrecognized operation produces the error and
exit status 1. -/
theorem C1_exit_status_witness :
    (ReadConfig { args := ["bogus"] } false (.ok {})).res.err =
      some "unrecognized action bogus" ∧
    mainExit { args := ["bogus"] } false (.ok {}) (fun _ _ => none) = 1 :=
  ⟨by decide, C1_exit_status.1 { args := ["bogus"] } false (.ok {}) (fun _ _ => none)
    "unrecognized action bogus" (by decide)⟩

/-- C2 (the code violates it): `reset` — documented in the program's
own usage text — has no entry in the `actions` map, so invoking the
program with first argument "reset" is rejected as an unrecognized
action rather than dispatched; the other six claimed operation names
do dispatch. -/
theorem C2_reset_not_dispatchable :
    actions "reset" = none ∧
    (ReadConfig { args := ["reset"] } false (.ok {})).res.err =
      some "unrecognized action reset" ∧
    (ReadConfig { args := ["reset"] } false (.ok {})).res.conf = none ∧
    (actions "list").isSome = true ∧ (actions "status").isSome = true ∧
    (actions "filter").isSome = true ∧ (actions "add").isSome = true ∧
    (actions "remove").isSome = true ∧ (actions "update").isSome = true := by
  decide

/-- C7: warnings for recoverable per-item errors go to stderr, never to
the primary output stream: `inform` writes only to stderr, `ReadConfig`
never writes to stdout, and the missing-config-file warning appears on
`ReadConfig`'s stderr. -/
theorem C7_warnings_on_stderr :
    (∀ c v, (inform c v).1 = []) ∧
    (∀ c e, c.Quiet = false → (inform c (.errv e)).2 = ["warning: " ++ e]) ∧
    (∀ cl ce ini, (ReadConfig cl ce ini).stdout = []) ∧
    (∀ cl ini, cl.showHelp = false →
      ("Warning: missing config file " ++ goQuote cl.configFile ++ ".") ∈
        (ReadConfig cl false ini).stderr) := by
  refine ⟨?_, ?_, ?_, ?_⟩
  · intro c v
    unfold inform
    split
    · cases v <;> rfl
    · rfl
  · intro c e hq
    unfold inform
    simp [hq]
  · intro cl ce ini
    unfold ReadConfig
    split
    · rfl
    · split
      · rfl
      · split
        · rfl
        · split <;> rfl
  · intro cl ini hsh
    have hm : ("Warning: missing config file " ++ goQuote cl.configFile ++ ".") ∈
        ["Warning: missing config file " ++ goQuote cl.configFile ++ "."] :=
      List.mem_singleton.2 rfl
    rcases hargs : cl.args with _ | ⟨a0, rest⟩
    · simp only [ReadConfig, hsh, Bool.false_eq_true, if_false, confAfterFile_false, hargs]
      exact confWithRepo_snd_mem _ _ _ hm
    · rcases hact : actions a0 with _ | act
      · simp only [ReadConfig, hsh, Bool.false_eq_true, if_false, confAfterFile_false,
          hargs, hact]
        exact confWithRepo_snd_mem _ _ _ hm
      · simp only [ReadConfig, hsh, Bool.false_eq_true, if_false, confAfterFile_false,
          hargs, hact]
        exact confWithRepo_snd_mem _ _ _ hm

/-- Witness for C7: the concrete missing-config-file warning lands on
stderr. -/
theorem C7_warnings_on_stderr_witness :
    ("Warning: missing config file " ++ goQuote "/home/user/.repo.conf" ++ ".") ∈
      (ReadConfig { configFile := "/home/user/.repo.conf", args := ["list"] } false
        (.ok {})).stderr :=
  C7_warnings_on_stderr.2.2.2 { configFile := "/home/user/.repo.conf", args := ["list"] }
    (.ok {}) (by decide)

/-- C8: with the Quiet flag set, `inform` emits nothing at all, on
either stream, whatever value or error it is passed. -/
theorem C8_quiet_suppresses_inform (c : Config) (v : InformArg) (h : c.Quiet = true) :
    inform c v = ([], []) := by
  unfold inform
  simp [h]

/-- Witness for C8 at a concrete quiet configuration and error. -/
theorem C8_quiet_suppresses_inform_witness :
    ({ Quiet := true } : Config).Quiet = true ∧
    inform { Quiet := true } (.errv "query failed") = ([], []) :=
  ⟨rfl, C8_quiet_suppresses_inform { Quiet := true } (.errv "query failed") rfl⟩

end Repoctl
